import Mathlib

/-!
Shallow embedding of the hybrid retriever of `backend/app/services/retriever.py`
together with the collaborator code it is wired to
(`backend/app/repositories/vector_repo.py`,
`backend/app/repositories/graph_repo.py`,
`backend/app/models/schemas/chat.py`,
`backend/app/api/v1/endpoints/chat.py`).

Python floats are modelled as rationals (`ℚ`), Python dicts with string keys
as ordered association lists (insertion order preserved, as in CPython),
Python `set`s of strings as `Finset String`, and fallible calls as `Except`.
-/

/-- A Python scalar value, as stored in the string-keyed dicts that
`vector_repo.search` and `_find_related_chunks_tx` build. -/
inductive PyVal where
  | none
  | str (s : String)
  | num (q : ℚ)
  | int (n : Int)
  deriving DecidableEq, Repr

/-- Errors surfaced by the embedded Python code: `typeError` for a call with an
unexpected keyword argument, `attributeError` for reading a missing attribute,
`invalidInput` for the pydantic request-validation failure (HTTP 422), and
`providerFailure` for an exception raised inside an external provider. -/
inductive PyErr where
  | typeError
  | attributeError
  | invalidInput
  | providerFailure
  deriving DecidableEq, Repr

/-- `RetrievedChunk` from `retriever.py` (lines 14-50): a retrieved chunk with
its vector, graph and fused scores.  The `metadata` dict is carried as an
association list; no verified property reads it. -/
structure RetrievedChunk where
  chunk_id : String
  document_id : Int := 0
  text : String := ""
  hierarchy_path : String := ""
  vector_score : ℚ := 0
  graph_score : ℚ := 0
  final_score : ℚ := 0
  metadata : List (String × PyVal) := []
  deriving DecidableEq, Repr

/-- `str.lower()` restricted to the ASCII case mapping. -/
def strLower (s : String) : String := ⟨s.data.map Char.toLower⟩

/-- `str.split()` with no separator argument: split on runs of whitespace and
drop empty pieces. -/
def splitWs (cs : List Char) : List (List Char) :=
  match cs with
  | [] => []
  | c :: rest =>
    if c.isWhitespace then splitWs rest
    else
      match splitWs rest with
      | [] => [[c]]
      | w :: ws =>
        if rest.head?.all (fun d => !d.isWhitespace) then (c :: w) :: ws
        else [c] :: w :: ws

/-- `set(text.lower().split())` from `_compute_overlap` (retriever.py lines
351-352): the set of lowercase whitespace-delimited tokens of a text. -/
def wordSet (t : String) : Finset String :=
  ((splitWs (strLower t).data).map (fun w => String.mk w)).toFinset

/-- `HybridRetriever._compute_overlap` (retriever.py lines 339-360): the
token-set Jaccard overlap of the two texts; 0 when either word set is empty. -/
def compute_overlap (text1 text2 : String) : ℚ :=
  let words1 := wordSet text1
  let words2 := wordSet text2
  if words1 = ∅ ∨ words2 = ∅ then 0
  else
    let inter := words1 ∩ words2
    let union := words1 ∪ words2
    if union = ∅ then 0 else (inter.card : ℚ) / (union.card : ℚ)

/-- The near-duplicate test of `_enforce_diversity`'s inner loop (retriever.py
lines 321-331): exact text match, or overlap strictly above the threshold. -/
def isNearDupOf (threshold : ℚ) (t sel : String) : Bool :=
  t == sel || decide (threshold < compute_overlap t sel)

/-- One iteration of the `for chunk in chunks[1:]` loop of
`_enforce_diversity` (retriever.py lines 315-335): stop adding once `top_k`
chunks are selected, skip near-duplicates, otherwise append. -/
def divStep (top_k : Nat) (threshold : ℚ) (acc : List RetrievedChunk)
    (chunk : RetrievedChunk) : List RetrievedChunk :=
  if top_k ≤ acc.length then acc
  else if acc.any (fun sel => isNearDupOf threshold chunk.text sel.text) then acc
  else acc ++ [chunk]

/-- `HybridRetriever._enforce_diversity` (retriever.py lines 292-337) with its
default `similarity_threshold=0.95`.  The Python code tracks the selected
texts in a `set`; since selected texts are pairwise distinct and the loop only
asks whether SOME selected text matches, checking against the selected chunks
themselves is equivalent. -/
def enforce_diversity (chunks : List RetrievedChunk) (top_k : Nat)
    (threshold : ℚ := 19/20) : List RetrievedChunk :=
  match chunks with
  | [] => []
  | c0 :: rest => rest.foldl (divStep top_k threshold) [c0]

/-- The same selection loop with the overlap test removed: only exact-text
duplicates are rejected.  Used to state that a threshold ≥ 1 disables the
overlap filter. -/
def exactStep (top_k : Nat) (acc : List RetrievedChunk)
    (chunk : RetrievedChunk) : List RetrievedChunk :=
  if top_k ≤ acc.length then acc
  else if acc.any (fun sel => chunk.text == sel.text) then acc
  else acc ++ [chunk]

/-- Exact-duplicate-only variant of `enforce_diversity` (specification device
for the threshold ≥ 1 case; not itself source code). -/
def enforceExactDedup (chunks : List RetrievedChunk) (top_k : Nat) :
    List RetrievedChunk :=
  match chunks with
  | [] => []
  | c0 :: rest => rest.foldl (exactStep top_k) [c0]

/-- The `chunk_map` of `_merge_and_rerank`: a Python dict keyed by `chunk_id`,
kept in insertion order as CPython does. -/
abbrev ChunkMap := List (String × RetrievedChunk)

/-- One dict write `chunk_map[chunk.chunk_id] = ...`: if the key is present,
replace the stored value in place (`upd old new`); otherwise append a fresh
entry `(new.chunk_id, new)`. -/
def mapStep (upd : RetrievedChunk → RetrievedChunk → RetrievedChunk)
    (m : ChunkMap) (c : RetrievedChunk) : ChunkMap :=
  if m.any (fun p => p.1 == c.chunk_id) then
    m.map (fun p => if p.1 == c.chunk_id then (p.1, upd p.2 c) else p)
  else m ++ [(c.chunk_id, c)]

/-- Seeding loop of `_merge_and_rerank` (retriever.py lines 259-260):
`chunk_map[chunk.chunk_id] = chunk` for every vector result. -/
def seedStep : ChunkMap → RetrievedChunk → ChunkMap :=
  mapStep (fun _old c => c)

/-- Graph-merge loop of `_merge_and_rerank` (retriever.py lines 263-270): an
existing entry gets only its `graph_score` updated (its `vector_score` is
untouched); a new id is inserted as-is. -/
def graphStep : ChunkMap → RetrievedChunk → ChunkMap :=
  mapStep (fun old c => { old with graph_score := c.graph_score })

/-- The fully merged `chunk_map`: seed with the vector results, then fold in
the graph results. -/
def mergedMap (vector_results graph_results : List RetrievedChunk) : ChunkMap :=
  graph_results.foldl graphStep (vector_results.foldl seedStep [])

/-- Dict lookup `chunk_map[k]` as an `Option`. -/
def mLookup (m : ChunkMap) (k : String) : Option RetrievedChunk :=
  (m.find? (fun p => p.1 == k)).map Prod.snd

/-- Weighted score fusion of `_merge_and_rerank` (retriever.py lines 273-277):
`final_score = vector_weight * vector_score + graph_weight * graph_score`. -/
def scoreChunk (vector_weight graph_weight : ℚ) (c : RetrievedChunk) :
    RetrievedChunk :=
  { c with final_score :=
      vector_weight * c.vector_score + graph_weight * c.graph_score }

/-- Stable descending insertion: a chunk is placed after every already-placed
chunk whose `final_score` is ≥ its own, matching the stability of CPython's
`list.sort(..., reverse=True)`. -/
def insertByScore (c : RetrievedChunk) : List RetrievedChunk → List RetrievedChunk
  | [] => [c]
  | x :: xs =>
    if c.final_score ≤ x.final_score then x :: insertByScore c xs
    else c :: x :: xs

/-- `all_chunks.sort(key=lambda x: x.final_score, reverse=True)` (retriever.py
lines 280-281): stable sort by `final_score` descending. -/
def sortByFinalDesc (l : List RetrievedChunk) : List RetrievedChunk :=
  l.foldl (fun acc c => insertByScore c acc) []

/-- `HybridRetriever._merge_and_rerank` (retriever.py lines 237-290): merge the
two result lists keyed by id, fuse scores with the configured weights, sort by
`final_score` descending, and apply the diversity filter (with its default
threshold 0.95) capped at `top_k`. -/
def merge_and_rerank (vector_weight graph_weight : ℚ)
    (vector_results graph_results : List RetrievedChunk) (top_k : Nat) :
    List RetrievedChunk :=
  let m := mergedMap vector_results graph_results
  let all_chunks := (m.map Prod.snd).map (scoreChunk vector_weight graph_weight)
  enforce_diversity (sortByFinalDesc all_chunks) top_k (19/20)

/-- `dict.get(k, default)`. -/
def pyDictGet (d : List (String × PyVal)) (k : String) (dflt : PyVal) : PyVal :=
  match d.find? (fun p => p.1 == k) with
  | some p => p.2
  | none => dflt

/-- Read a `PyVal` as a Python float (rational).  Non-numeric values coerce to
0; no verified property depends on that coercion. -/
def pyNum : PyVal → ℚ
  | PyVal.num q => q
  | PyVal.int n => (n : ℚ)
  | _ => 0

/-- Read a `PyVal` as a string (non-strings coerce to ""). -/
def pyStr : PyVal → String
  | PyVal.str s => s
  | _ => ""

/-- Read a `PyVal` as an int (non-ints coerce to 0). -/
def pyInt : PyVal → Int
  | PyVal.int n => n
  | _ => 0

/-- The relevance score computed by the Cypher query of
`GraphRepository._find_related_chunks_tx` (graph_repo.py line 365):
`1.0 / (1.0 + distance)` for a related chunk at the given hop distance. -/
def pathScore (distance : ℚ) : ℚ := 1 / (1 + distance)

/-- The dict built per record by `_find_related_chunks_tx` (graph_repo.py
lines 388-397).  Note the keys: the path score is returned under the key
`"relevance_score"` (aliased from `path_score` in the Cypher RETURN). -/
def graphRepoRow (chunk_id text : String) (page_number hierarchy_level : PyVal)
    (hierarchy_path : String) (relevance_score : ℚ) : List (String × PyVal) :=
  [("chunk_id", PyVal.str chunk_id),
   ("text", PyVal.str text),
   ("page_number", page_number),
   ("hierarchy_level", hierarchy_level),
   ("hierarchy_path", PyVal.str hierarchy_path),
   ("relevance_score", PyVal.num relevance_score)]

/-- The `RetrievedChunk` that `HybridRetriever._graph_traverse` builds from one
related-chunk dict (retriever.py lines 214-229): `vector_score` is 0 and
`graph_score` is `item.get("path_score", 0.0)`. -/
def graphTraverseChunk (item : List (String × PyVal)) : RetrievedChunk :=
  { chunk_id := pyStr (pyDictGet item "chunk_id" PyVal.none),
    document_id := pyInt (pyDictGet item "document_id" PyVal.none),
    text := pyStr (pyDictGet item "text" PyVal.none),
    hierarchy_path := pyStr (pyDictGet item "hierarchy_path" (PyVal.str "")),
    vector_score := 0,
    graph_score := pyNum (pyDictGet item "path_score" (PyVal.num 0)),
    final_score := pyNum (pyDictGet item "path_score" (PyVal.num 0)),
    metadata :=
      [("page_number", pyDictGet item "page_number" PyVal.none),
       ("section_title", pyDictGet item "section_title" PyVal.none),
       ("article_number", pyDictGet item "article_number" PyVal.none),
       ("relationship_type", pyDictGet item "relationship_type" PyVal.none)] }

/-- The keyword parameters declared by `VectorRepository.search`
(vector_repo.py lines 171-177). -/
def vectorRepoSearchParams : List String :=
  ["query_vector", "limit", "score_threshold", "filter_conditions"]

/-- The keyword arguments `HybridRetriever._vector_search` passes to
`self.vector_repo.search` (retriever.py lines 156-160). -/
def retrieverSearchCallKwargs : List String :=
  ["query_vector", "limit", "filters"]

/-- A Python keyword call is accepted only when every keyword argument names a
declared parameter. -/
def pyCallOk (params kwargs : List String) : Bool :=
  kwargs.all (fun k => params.contains k)

/-- Semantics of a Python keyword call: an unexpected keyword argument raises
`TypeError` before the callee's body runs. -/
def pyCall {A : Type} (params kwargs : List String) (body : Except PyErr A) :
    Except PyErr A :=
  if pyCallOk params kwargs then body else Except.error PyErr.typeError

/-- One Qdrant scored point, as consumed by `VectorRepository.search`. -/
structure QdrantHit where
  hit_id : Int
  score : ℚ
  payload : List (String × PyVal)
  deriving DecidableEq, Repr

/-- The result dict built per hit by `VectorRepository.search` (vector_repo.py
lines 220-246).  The nested `"metadata"` sub-dict is omitted: no verified
property reads it, and the dict never reaches a consumer (see below). -/
def formatResultRow (hit : QdrantHit) : List (String × PyVal) :=
  [("id", PyVal.int hit.hit_id),
   ("score", PyVal.num hit.score),
   ("chunk_id", pyDictGet hit.payload "chunk_id" PyVal.none),
   ("document_id", pyDictGet hit.payload "document_id" PyVal.none),
   ("text", pyDictGet hit.payload "text" PyVal.none),
   ("page_number", pyDictGet hit.payload "page_number" PyVal.none),
   ("hierarchy_level", pyDictGet hit.payload "hierarchy_level" PyVal.none),
   ("hierarchy_path", pyDictGet hit.payload "hierarchy_path" PyVal.none)]

/-- Attribute access on a plain dict object: for the data attribute names used
by `_vector_search` (`payload`, `score`) a Python dict raises
`AttributeError`. -/
def pyAttrOfDict (_d : List (String × PyVal)) (_attr : String) :
    Except PyErr PyVal :=
  Except.error PyErr.attributeError

/-- The conversion loop of `_vector_search` (retriever.py lines 163-180)
applied to what `VectorRepository.search` actually returns (plain dicts): each
iteration starts with `payload = result.payload`. -/
def convertVectorResults (rows : List (List (String × PyVal))) :
    Except PyErr (List RetrievedChunk) :=
  rows.mapM (fun row => do
    let _payload ← pyAttrOfDict row "payload"
    let _score ← pyAttrOfDict row "score"
    pure { chunk_id := "" : RetrievedChunk })

/-- `_vector_search` wired to the in-repo `VectorRepository.search`: the
keyword call of retriever.py lines 156-160 against the signature of
vector_repo.py lines 171-177, followed by the dict-to-chunk conversion. -/
def vectorSearchWired (hits : List QdrantHit) :
    Except PyErr (List RetrievedChunk) :=
  pyCall vectorRepoSearchParams retrieverSearchCallKwargs
    (convertVectorResults (hits.map formatResultRow))

/-- The three external providers the orchestrator can invoke, in call order. -/
inductive PCall where
  | embed
  | vector
  | graph
  deriving DecidableEq, Repr

/-- The collaborators of `HybridRetriever.retrieve`: the embedding service,
the vector-search step (embedding → limit → filters → chunks; the dict
conversion of `_vector_search` is folded into the provider), and the graph
traversal (seed chunk ids → related-chunk dicts; `max_depth`/`max_results`
are captured by the provider closure). -/
structure Providers where
  encodeQuery : String → List ℚ
  vectorSearch : List ℚ → Nat → Option (List (String × PyVal)) →
    Except PyErr (List RetrievedChunk)
  graphFind : List String → Except PyErr (List (List (String × PyVal)))

/-- `k = top_k or self.top_k` (retriever.py line 98): Python `or` falls back on
`None` and on the falsy value 0. -/
def resolveTopK (top_k : Option Nat) (selfTopK : Nat) : Nat :=
  match top_k with
  | some n => if n = 0 then selfTopK else n
  | none => selfTopK

/-- `HybridRetriever.retrieve` (retriever.py lines 79-132): embed the query and
run vector search with limit `k * 2`; an empty vector result short-circuits to
`[]`; otherwise optionally traverse the graph (converting each related dict
with `graphTraverseChunk`, retriever.py lines 213-229) and fuse with
`merge_and_rerank`.  The first component records which providers were
invoked, in order; the `try/except ... raise` wrapper re-raises unchanged. -/
def retrieveModel (p : Providers) (vector_weight graph_weight : ℚ)
    (selfTopK : Nat) (query : String) (top_k : Option Nat)
    (filters : Option (List (String × PyVal))) (enable_graph : Bool) :
    List PCall × Except PyErr (List RetrievedChunk) :=
  let k := resolveTopK top_k selfTopK
  let emb := p.encodeQuery query
  match p.vectorSearch emb (k * 2) filters with
  | Except.error e => ([PCall.embed, PCall.vector], Except.error e)
  | Except.ok vector_results =>
    if vector_results.isEmpty then
      ([PCall.embed, PCall.vector], Except.ok [])
    else if enable_graph then
      match p.graphFind (vector_results.map RetrievedChunk.chunk_id) with
      | Except.error e =>
          ([PCall.embed, PCall.vector, PCall.graph], Except.error e)
      | Except.ok rows =>
          ([PCall.embed, PCall.vector, PCall.graph],
           Except.ok (merge_and_rerank vector_weight graph_weight
             vector_results (rows.map graphTraverseChunk) k))
    else
      ([PCall.embed, PCall.vector],
       Except.ok (merge_and_rerank vector_weight graph_weight
         vector_results [] k))

/-- The pydantic validation of `ChatRequest.message` (chat.py lines 94-97):
`Field(..., min_length=1)`. -/
def chatRequestMessageValid (message : String) : Bool :=
  decide (1 ≤ message.length)

/-- The REST chat pipeline (endpoints/chat.py lines 28-86 composed with
`RAGService.query`): the request is validated by `ChatRequest` first — a
failing validation yields HTTP 422 (`invalidInput`) with no provider touched —
then `retrieve(query=request.message, filters=filters)` runs with default
`top_k` and `enable_graph`. -/
def handleChat (p : Providers) (vector_weight graph_weight : ℚ)
    (selfTopK : Nat) (message : String) :
    List PCall × Except PyErr (List RetrievedChunk) :=
  if chatRequestMessageValid message then
    retrieveModel p vector_weight graph_weight selfTopK message none none true
  else ([], Except.error PyErr.invalidInput)

/-- C2: along the in-repo wiring, the claim fails: `_find_related_chunks_tx`
returns each related chunk's path score under the key `"relevance_score"`
(graph_repo.py lines 374, 395), while `_graph_traverse` reads
`item.get("path_score", 0.0)` (retriever.py line 221), so the constructed
candidate's `graph_score` is always the 0.0 default — even though the Cypher
did compute `1.0 / (1.0 + distance)` and the row carries that value (e.g. 1/2
at hop distance 1).  The `vector_score = 0` part of the claim does hold. -/
theorem C2_graph_score_dropped (cid txt hp : String) (pn hl : PyVal) (d : ℚ) :
    (graphTraverseChunk (graphRepoRow cid txt pn hl hp (pathScore d))).vector_score = 0 ∧
    (graphTraverseChunk (graphRepoRow cid txt pn hl hp (pathScore d))).graph_score = 0 ∧
    pathScore 1 = 1/2 ∧
    pyNum (pyDictGet (graphRepoRow cid txt pn hl hp (pathScore 1))
      "relevance_score" (PyVal.num 0)) = 1/2 := by
  refine ⟨rfl, ?_, by norm_num [pathScore], ?_⟩
  · simp +decide [graphTraverseChunk, graphRepoRow, pyDictGet, pyNum, List.find?]
  · have : pathScore 1 = 1/2 := by norm_num [pathScore]
    rw [this]
    simp +decide [graphRepoRow, pyDictGet, pyNum, List.find?]

/-- C4: a blank (empty) chat message fails the `ChatRequest` validation
(`min_length=1`, chat.py line 97) that the endpoint applies before calling
into retrieval, so the pipeline answers `invalidInput` with an empty provider
trace: neither the embedding service, nor vector search, nor graph traversal
is invoked. -/
theorem C4_blank_query_rejected_before_providers (p : Providers)
    (vector_weight graph_weight : ℚ) (selfTopK : Nat) :
    chatRequestMessageValid "" = false ∧
    handleChat p vector_weight graph_weight selfTopK "" =
      ([], Except.error PyErr.invalidInput) := ⟨rfl, rfl⟩

/-- C5: whenever the vector-search step returns the empty list, `retrieve`
returns `Except.ok []` without raising, and the provider trace is exactly
embed-then-vector — the graph traversal provider is not invoked, whatever
`enable_graph` is. -/
theorem C5_empty_vector_short_circuit (p : Providers)
    (vector_weight graph_weight : ℚ) (selfTopK : Nat) (query : String)
    (top_k : Option Nat) (filters : Option (List (String × PyVal)))
    (enable_graph : Bool)
    (h : p.vectorSearch (p.encodeQuery query) (resolveTopK top_k selfTopK * 2)
      filters = Except.ok []) :
    retrieveModel p vector_weight graph_weight selfTopK query top_k filters
        enable_graph = ([PCall.embed, PCall.vector], Except.ok []) ∧
    PCall.graph ∉ (retrieveModel p vector_weight graph_weight selfTopK query
        top_k filters enable_graph).1 := by
  have hres : retrieveModel p vector_weight graph_weight selfTopK query top_k
      filters enable_graph = ([PCall.embed, PCall.vector], Except.ok []) := by
    simp [retrieveModel, h]
  exact ⟨hres, by rw [hres]; decide⟩

/-- Witness for C5 at a concrete provider triple whose vector search returns
the empty list. -/
theorem C5_empty_vector_short_circuit_witness :
    retrieveModel ⟨fun _ => [], fun _ _ _ => Except.ok [], fun _ => Except.ok []⟩
        1 1 5 "tax law" none none true =
      ([PCall.embed, PCall.vector], Except.ok []) ∧
    PCall.graph ∉ (retrieveModel
        ⟨fun _ => [], fun _ _ _ => Except.ok [], fun _ => Except.ok []⟩
        1 1 5 "tax law" none none true).1 :=
  C5_empty_vector_short_circuit _ 1 1 5 "tax law" none none true rfl

/-- C9: the keyword call `self.vector_repo.search(query_vector=..., limit=...,
filters=...)` (retriever.py lines 156-160) names a keyword
(`filters`) that `VectorRepository.search` (vector_repo.py lines 171-177)
does not declare (it declares `filter_conditions`), so the call raises
`TypeError` before the repository body runs; hence a `retrieve` call wired to
this in-repo provider always errors and never produces a candidate. -/
theorem C9_wired_vector_search_always_raises (emb : String → List ℚ)
    (gf : List String → Except PyErr (List (List (String × PyVal))))
    (hits : List QdrantHit) (vector_weight graph_weight : ℚ) (selfTopK : Nat)
    (query : String) (top_k : Option Nat)
    (filters : Option (List (String × PyVal))) (enable_graph : Bool) :
    pyCallOk vectorRepoSearchParams retrieverSearchCallKwargs = false ∧
    vectorSearchWired hits = Except.error PyErr.typeError ∧
    (retrieveModel ⟨emb, fun _ _ _ => vectorSearchWired hits, gf⟩
        vector_weight graph_weight selfTopK query top_k filters
        enable_graph).2 = Except.error PyErr.typeError := by
  have h1 : pyCallOk vectorRepoSearchParams retrieverSearchCallKwargs = false := by
    decide
  have h2 : vectorSearchWired hits = Except.error PyErr.typeError := by
    simp [vectorSearchWired, pyCall, h1]
  exact ⟨h1, h2, by simp [retrieveModel, h2]⟩

/-- ASCII lowercasing sends whitespace characters to themselves. -/
lemma char_toLower_isWhitespace {c : Char} (h : c.isWhitespace = true) :
    c.toLower.isWhitespace = true := by
  have h' : ((c = ' ' ∨ c = '\t') ∨ c = '\x0d') ∨ c = '\n' := by
    simpa [Char.isWhitespace] using h
  rcases h' with ((rfl | rfl) | rfl) | rfl <;> decide

/-- Splitting a whitespace-only character list yields no tokens. -/
lemma splitWs_nil_of_ws {cs : List Char} (h : ∀ c ∈ cs, c.isWhitespace = true) :
    splitWs cs = [] := by
  induction cs with
  | nil => rfl
  | cons c rest ih =>
    unfold splitWs
    rw [if_pos (h c (List.mem_cons_self c rest))]
    exact ih (fun d hd => h d (List.mem_cons_of_mem c hd))

/-- A whitespace-only text has an empty word set. -/
lemma wordSet_empty_of_ws {t : String} (h : ∀ c ∈ t.data, c.isWhitespace = true) :
    wordSet t = ∅ := by
  unfold wordSet strLower
  rw [splitWs_nil_of_ws]
  · rfl
  · intro c hc
    rw [List.mem_map] at hc
    obtain ⟨d, hd, rfl⟩ := hc
    exact char_toLower_isWhitespace (h d hd)

/-- The overlap value is never negative. -/
lemma compute_overlap_nonneg (t1 t2 : String) : 0 ≤ compute_overlap t1 t2 := by
  simp only [compute_overlap]
  split
  · exact le_refl 0
  · split
    · exact le_refl 0
    · positivity

/-- The overlap value never exceeds 1. -/
lemma compute_overlap_le_one (t1 t2 : String) : compute_overlap t1 t2 ≤ 1 := by
  simp only [compute_overlap]
  split
  · norm_num
  · rename_i hne
    push_neg at hne
    split
    · norm_num
    · rename_i hu
      rw [div_le_one]
      · exact_mod_cast Finset.card_le_card
          ((Finset.inter_subset_left).trans Finset.subset_union_left)
      · exact_mod_cast Finset.card_pos.mpr
          (Finset.nonempty_iff_ne_empty.mpr hu)

/-- The overlap test of `_compute_overlap` is symmetric in its two texts. -/
lemma compute_overlap_comm (t1 t2 : String) :
    compute_overlap t1 t2 = compute_overlap t2 t1 := by
  by_cases h1 : wordSet t1 = ∅ <;> by_cases h2 : wordSet t2 = ∅ <;>
    simp [compute_overlap, h1, h2, Finset.inter_comm, Finset.union_comm]

/-- An empty word set on either side forces overlap 0. -/
lemma compute_overlap_zero_of_empty {t1 t2 : String}
    (h : wordSet t1 = ∅ ∨ wordSet t2 = ∅) : compute_overlap t1 t2 = 0 := by
  rcases h with h | h <;> simp [compute_overlap, h]

/-- C10: `_compute_overlap` is total: its value always lies in [0, 1]; in the
branch that divides, the union's cardinality is nonzero (the empty-word-set
branch returned 0 first, so no division by zero is reachable); an empty word
set on either side yields 0; and a whitespace-only first text yields 0, so
under any nonnegative threshold such a text can be rejected only by the
exact-text equality check, never by the overlap test. -/
theorem C10_compute_overlap_total (t1 t2 : String) (threshold : ℚ) :
    0 ≤ compute_overlap t1 t2 ∧ compute_overlap t1 t2 ≤ 1 ∧
    (wordSet t1 ≠ ∅ → wordSet t2 ≠ ∅ →
      ((wordSet t1 ∪ wordSet t2).card : ℚ) ≠ 0) ∧
    ((wordSet t1 = ∅ ∨ wordSet t2 = ∅) → compute_overlap t1 t2 = 0) ∧
    ((∀ c ∈ t1.data, c.isWhitespace = true) → 0 ≤ threshold →
      compute_overlap t1 t2 = 0 ∧ isNearDupOf threshold t1 t2 = (t1 == t2)) := by
  refine ⟨compute_overlap_nonneg t1 t2, compute_overlap_le_one t1 t2, ?_, 
    compute_overlap_zero_of_empty, ?_⟩
  · intro h1 _
    have hpos : 0 < (wordSet t1 ∪ wordSet t2).card :=
      Finset.card_pos.mpr (Finset.Nonempty.mono Finset.subset_union_left
        (Finset.nonempty_iff_ne_empty.mpr h1))
    exact Nat.cast_ne_zero.mpr (Nat.pos_iff_ne_zero.mp hpos)
  · intro hws hθ
    have hz : compute_overlap t1 t2 = 0 :=
      compute_overlap_zero_of_empty (Or.inl (wordSet_empty_of_ws hws))
    refine ⟨hz, ?_⟩
    simp [isNearDupOf, hz, not_lt.mpr hθ]

/-- Inserting into the stable descending sort is a permutation-cons. -/
lemma insertByScore_perm (c : RetrievedChunk) (l : List RetrievedChunk) :
    (insertByScore c l).Perm (c :: l) := by
  induction l with
  | nil => exact List.Perm.refl _
  | cons x xs ih =>
    unfold insertByScore
    split
    · exact (ih.cons x).trans (List.Perm.swap c x xs)
    · exact List.Perm.refl _

/-- Sortedness (non-increasing `final_score`) is preserved by insertion. -/
lemma insertByScore_sorted (c : RetrievedChunk) (l : List RetrievedChunk)
    (h : l.Pairwise (fun a b => b.final_score ≤ a.final_score)) :
    (insertByScore c l).Pairwise (fun a b => b.final_score ≤ a.final_score) := by
  induction l with
  | nil => simp [insertByScore]
  | cons x xs ih =>
    rw [List.pairwise_cons] at h
    obtain ⟨hx, hxs⟩ := h
    unfold insertByScore
    split
    · rename_i hle
      rw [List.pairwise_cons]
      refine ⟨?_, ih hxs⟩
      intro y hy
      rcases List.mem_cons.mp ((insertByScore_perm c xs).mem_iff.mp hy) with rfl | hy'
      · exact hle
      · exact hx y hy'
    · rename_i hgt
      push_neg at hgt
      rw [List.pairwise_cons]
      refine ⟨?_, List.pairwise_cons.mpr ⟨hx, hxs⟩⟩
      intro y hy
      rcases List.mem_cons.mp hy with rfl | hy'
      · exact le_of_lt hgt
      · exact (hx y hy').trans (le_of_lt hgt)

/-- The sort of `_merge_and_rerank` permutes its input. -/
lemma sortByFinalDesc_perm (l : List RetrievedChunk) :
    (sortByFinalDesc l).Perm l := by
  suffices h : ∀ (l : List RetrievedChunk) (acc : List RetrievedChunk),
      (l.foldl (fun acc c => insertByScore c acc) acc).Perm (acc ++ l) by
    simpa using h l []
  intro l
  induction l with
  | nil => intro acc; simp
  | cons c rest ih =>
    intro acc
    rw [List.foldl_cons]
    refine (ih (insertByScore c acc)).trans ?_
    refine (List.Perm.append_right rest (insertByScore_perm c acc)).trans ?_
    simpa using List.perm_middle.symm

/-- The sort of `_merge_and_rerank` yields a list whose `final_score`s are
non-increasing. -/
lemma sortByFinalDesc_sorted (l : List RetrievedChunk) :
    (sortByFinalDesc l).Pairwise (fun a b => b.final_score ≤ a.final_score) := by
  suffices h : ∀ (l : List RetrievedChunk) (acc : List RetrievedChunk),
      acc.Pairwise (fun a b => b.final_score ≤ a.final_score) →
      (l.foldl (fun acc c => insertByScore c acc) acc).Pairwise
        (fun a b => b.final_score ≤ a.final_score) by
    exact h l [] (List.Pairwise.nil)
  intro l
  induction l with
  | nil => intro acc hacc; simpa using hacc
  | cons c rest ih =>
    intro acc hacc
    rw [List.foldl_cons]
    exact ih _ (insertByScore_sorted c acc hacc)

/-- Each step of the diversity loop either keeps the selection or appends the
scanned chunk at the end. -/
lemma divStep_cases (top_k : Nat) (threshold : ℚ) (acc : List RetrievedChunk)
    (c : RetrievedChunk) :
    divStep top_k threshold acc c = acc ∨
    divStep top_k threshold acc c = acc ++ [c] := by
  unfold divStep
  split
  · exact Or.inl rfl
  · split
    · exact Or.inl rfl
    · exact Or.inr rfl

/-- The diversity loop only ever extends the already-selected prefix with a
subsequence of the scanned chunks. -/
lemma foldl_divStep_decomp (top_k : Nat) (threshold : ℚ) :
    ∀ (l acc : List RetrievedChunk),
      ∃ sel, l.foldl (divStep top_k threshold) acc = acc ++ sel ∧ sel.Sublist l := by
  intro l
  induction l with
  | nil => intro acc; exact ⟨[], by simp⟩
  | cons c rest ih =>
    intro acc
    rw [List.foldl_cons]
    rcases divStep_cases top_k threshold acc c with hstep | hstep
    · obtain ⟨sel, hs, hsub⟩ := ih (divStep top_k threshold acc c)
      exact ⟨sel, by rw [hs, hstep], hsub.cons c⟩
    · obtain ⟨sel, hs, hsub⟩ := ih (divStep top_k threshold acc c)
      refine ⟨c :: sel, ?_, hsub.cons₂ c⟩
      rw [hs, hstep, List.append_assoc]
      rfl

/-- The diversity filter selects a subsequence of its (sorted) input. -/
lemma enforce_diversity_sublist (chunks : List RetrievedChunk) (top_k : Nat)
    (threshold : ℚ) :
    (enforce_diversity chunks top_k threshold).Sublist chunks := by
  cases chunks with
  | nil => exact List.Sublist.refl _
  | cons c0 rest =>
    obtain ⟨sel, hs, hsub⟩ := foldl_divStep_decomp top_k threshold rest [c0]
    show (rest.foldl (divStep top_k threshold) [c0]).Sublist (c0 :: rest)
    rw [hs]
    exact hsub.cons₂ c0

/-- The diversity loop never displaces the already-selected head. -/
lemma foldl_divStep_head (top_k : Nat) (threshold : ℚ)
    (l : List RetrievedChunk) (c0 : RetrievedChunk) :
    (l.foldl (divStep top_k threshold) [c0]).head? = some c0 := by
  obtain ⟨sel, hs, _⟩ := foldl_divStep_decomp top_k threshold l [c0]
  rw [hs]
  rfl

/-- The pairwise compatibility the diversity filter guarantees between any two
chunks of its output: distinct texts, and overlap within the threshold. -/
def DivOK (threshold : ℚ) (a b : RetrievedChunk) : Prop :=
  a.text ≠ b.text ∧ compute_overlap a.text b.text ≤ threshold

/-- One diversity step preserves pairwise compatibility of the selection. -/
lemma divStep_pairwise (top_k : Nat) (threshold : ℚ)
    (acc : List RetrievedChunk) (c : RetrievedChunk)
    (h : acc.Pairwise (DivOK threshold)) :
    (divStep top_k threshold acc c).Pairwise (DivOK threshold) := by
  unfold divStep
  split
  · exact h
  · split
    · exact h
    · rename_i hdup
      simp only [Bool.not_eq_true, List.any_eq_false] at hdup
      rw [List.pairwise_append]
      refine ⟨h, List.pairwise_singleton _ _, ?_⟩
      intro a ha b hb
      rw [List.mem_singleton] at hb
      subst hb
      have hfail := hdup a ha
      simp only [Bool.not_eq_true] at hfail
      rw [isNearDupOf, Bool.or_eq_false_iff] at hfail
      obtain ⟨hne, hlt⟩ := hfail
      refine ⟨?_, ?_⟩
      · intro heq
        rw [beq_eq_false_iff_ne] at hne
        exact hne heq.symm
      · rw [decide_eq_false_iff_not, not_lt] at hlt
        rw [compute_overlap_comm]
        exact hlt

/-- The whole diversity loop preserves pairwise compatibility. -/
lemma foldl_divStep_pairwise (top_k : Nat) (threshold : ℚ) :
    ∀ (l acc : List RetrievedChunk), acc.Pairwise (DivOK threshold) →
      (l.foldl (divStep top_k threshold) acc).Pairwise (DivOK threshold) := by
  intro l
  induction l with
  | nil => intro acc hacc; exact hacc
  | cons c rest ih =>
    intro acc hacc
    rw [List.foldl_cons]
    exact ih _ (divStep_pairwise top_k threshold acc c hacc)

/-- C7: the highest-scoring candidate is always selected (it stays the head of
the output), and any two chunks in the output of `_enforce_diversity` have
distinct texts and a word-overlap ratio that does not exceed the threshold. -/
theorem C7_diversity_invariant (chunks : List RetrievedChunk) (top_k : Nat)
    (threshold : ℚ) (hne : chunks ≠ []) (htop : 1 ≤ top_k) :
    (enforce_diversity chunks top_k threshold).head? = chunks.head? ∧
    (enforce_diversity chunks top_k threshold).Pairwise (DivOK threshold) := by
  match chunks with
  | [] => exact absurd rfl hne
  | c0 :: rest =>
    constructor
    · show (rest.foldl (divStep top_k threshold) [c0]).head? = some c0
      exact foldl_divStep_head top_k threshold rest c0
    · show (rest.foldl (divStep top_k threshold) [c0]).Pairwise (DivOK threshold)
      exact foldl_divStep_pairwise top_k threshold rest [c0]
        (List.pairwise_singleton _ _)

/-- Witness for C7 on a concrete two-element sorted list with distinct texts
and topK = 2. -/
theorem C7_diversity_invariant_witness :
    (enforce_diversity
        [{ chunk_id := "1", text := "alpha", final_score := 9/10 },
         { chunk_id := "2", text := "bravo", final_score := 1/2 }] 2
        (19/20)).head? =
      ([{ chunk_id := "1", text := "alpha", final_score := 9/10 },
        { chunk_id := "2", text := "bravo", final_score := 1/2 }] :
        List RetrievedChunk).head? ∧
    (enforce_diversity
        [{ chunk_id := "1", text := "alpha", final_score := 9/10 },
         { chunk_id := "2", text := "bravo", final_score := 1/2 }] 2
        (19/20)).Pairwise (DivOK (19/20)) :=
  C7_diversity_invariant _ 2 (19/20) (by simp) (by norm_num)

/-- C6: the fused output of `_merge_and_rerank` is sorted by `final_score` in
non-increasing order — the sort orders all merged candidates, and the
diversity filter keeps a subsequence of that order. -/
theorem C6_output_sorted_desc (vector_weight graph_weight : ℚ)
    (vector_results graph_results : List RetrievedChunk) (top_k : Nat) :
    (merge_and_rerank vector_weight graph_weight vector_results graph_results
        top_k).Pairwise (fun a b => b.final_score ≤ a.final_score) := by
  unfold merge_and_rerank
  exact List.Pairwise.sublist
    (enforce_diversity_sublist _ _ _) (sortByFinalDesc_sorted _)

/-- When every later chunk repeats the head's text, the exact-match test
rejects it and the selection stays the singleton head. -/
lemma foldl_divStep_all_same (top_k : Nat) (threshold : ℚ)
    (c0 : RetrievedChunk) :
    ∀ l : List RetrievedChunk, (∀ c ∈ l, c.text = c0.text) →
      l.foldl (divStep top_k threshold) [c0] = [c0] := by
  intro l
  induction l with
  | nil => intro _; rfl
  | cons c rest ih =>
    intro h
    have hstep : divStep top_k threshold [c0] c = [c0] := by
      unfold divStep
      split
      · rfl
      · rw [if_pos]
        simp [isNearDupOf, h c (List.mem_cons_self c rest)]
    rw [List.foldl_cons, hstep]
    exact ih (fun d hd => h d (List.mem_cons_of_mem c hd))

/-- A threshold ≥ 1 can never be exceeded by an overlap value, so the
near-duplicate test degenerates to the exact-text check. -/
lemma isNearDupOf_of_one_le {threshold : ℚ} (h : 1 ≤ threshold)
    (t sel : String) : isNearDupOf threshold t sel = (t == sel) := by
  unfold isNearDupOf
  rw [decide_eq_false_iff_not.mpr (not_lt.mpr ((compute_overlap_le_one t sel).trans h)),
    Bool.or_false]

/-- With a threshold ≥ 1 the diversity filter coincides with plain exact-text
deduplication. -/
lemma enforce_diversity_eq_exact {threshold : ℚ} (h : 1 ≤ threshold)
    (chunks : List RetrievedChunk) (top_k : Nat) :
    enforce_diversity chunks top_k threshold = enforceExactDedup chunks top_k := by
  have hstep : divStep top_k threshold = exactStep top_k := by
    funext acc c
    unfold divStep exactStep
    have : (fun sel : RetrievedChunk => isNearDupOf threshold c.text sel.text) =
        (fun sel : RetrievedChunk => c.text == sel.text) := by
      funext sel
      exact isNearDupOf_of_one_le h c.text sel.text
    rw [this]
  unfold enforce_diversity enforceExactDedup
  rw [hstep]

/-- A chunk pair with word-disjoint texts, used to exhibit that threshold 0
does not reduce the output to the single top candidate. -/
def cexA : RetrievedChunk := { chunk_id := "1", text := "alpha" }

/-- Second chunk of the threshold-0 counterexample; its text shares no token
with `cexA`'s. -/
def cexB : RetrievedChunk := { chunk_id := "2", text := "bravo" }

/-- C8 counterexample: with threshold 0 and topK = 2, the input
`[cexA, cexB]` (distinct, word-disjoint texts) is returned whole — two
candidates, not "only the top candidate": a later candidate with zero overlap
against every selected one survives the `overlap > 0` test. -/
theorem C8_threshold_zero_counterexample :
    (enforce_diversity [cexA, cexB] 2 0).length ≠ 1 ∧
    enforce_diversity [cexA, cexB] 2 0 = [cexA, cexB] := by
  have hov : compute_overlap cexB.text cexA.text = 0 := by
    have : wordSet cexB.text ∩ wordSet cexA.text = ∅ := by decide
    simp [compute_overlap, this]
  have hdup : isNearDupOf 0 cexB.text cexA.text = false := by
    simp [isNearDupOf, hov]
    decide
  have hres : enforce_diversity [cexA, cexB] 2 0 = [cexA, cexB] := by
    show List.foldl (divStep 2 0) [cexA] [cexB] = [cexA, cexB]
    rw [List.foldl_cons]
    have hstep : divStep 2 0 [cexA] cexB = [cexA, cexB] := by
      unfold divStep
      rw [if_neg (by norm_num), if_neg (by simp [hdup])]
      rfl
    rw [hstep]
    rfl
  exact ⟨by rw [hres]; decide, hres⟩

/-- C8 (amended): empty input yields empty output; a nonempty input whose
texts are all identical yields exactly one candidate; with threshold 0 any
two output chunks have word overlap exactly 0 (a later candidate with any
nonzero overlap is rejected, but word-disjoint candidates are still kept, so
the output need not be a single candidate); and a threshold ≥ 1 disables the
overlap filter — the result equals plain exact-text deduplication. -/
theorem C8_diversity_edge_cases (top_k : Nat) (threshold : ℚ)
    (chunks : List RetrievedChunk) (t : String) :
    enforce_diversity [] top_k threshold = [] ∧
    (chunks ≠ [] → (∀ c ∈ chunks, c.text = t) →
      (enforce_diversity chunks top_k threshold).length = 1) ∧
    (enforce_diversity chunks top_k 0).Pairwise
      (fun a b => compute_overlap a.text b.text = 0) ∧
    (1 ≤ threshold →
      enforce_diversity chunks top_k threshold = enforceExactDedup chunks top_k) := by
  refine ⟨rfl, ?_, ?_, fun h => enforce_diversity_eq_exact h chunks top_k⟩
  · intro hne hsame
    match chunks with
    | [] => exact absurd rfl hne
    | c0 :: rest =>
      show (rest.foldl (divStep top_k threshold) [c0]).length = 1
      rw [foldl_divStep_all_same top_k threshold c0 rest]
      · rfl
      · intro c hc
        rw [hsame c (List.mem_cons_of_mem c0 hc),
          hsame c0 (List.mem_cons_self c0 rest)]
  · match chunks with
    | [] => exact List.Pairwise.nil
    | c0 :: rest =>
      have hpw : (rest.foldl (divStep top_k 0) [c0]).Pairwise (DivOK 0) :=
        foldl_divStep_pairwise top_k 0 rest [c0] (List.pairwise_singleton _ _)
      show (rest.foldl (divStep top_k 0) [c0]).Pairwise
        (fun a b => compute_overlap a.text b.text = 0)
      exact hpw.imp (fun hab => le_antisymm hab.2 (compute_overlap_nonneg _ _))

/-- First chunk of the C8 witness pair (text identical to `cexD2`'s). -/
def cexD1 : RetrievedChunk := { chunk_id := "1", text := "delta" }

/-- Second chunk of the C8 witness pair (text identical to `cexD1`'s). -/
def cexD2 : RetrievedChunk := { chunk_id := "2", text := "delta" }

/-- Witness for the amended C8 on a concrete identical-text pair with
topK = 2 and threshold 1. -/
theorem C8_diversity_edge_cases_witness :
    enforce_diversity [] 2 (1 : ℚ) = [] ∧
    (enforce_diversity [cexD1, cexD2] 2 1).length = 1 ∧
    (enforce_diversity [cexD1, cexD2] 2 0).Pairwise
      (fun a b => compute_overlap a.text b.text = 0) ∧
    enforce_diversity [cexD1, cexD2] 2 1 = enforceExactDedup [cexD1, cexD2] 2 := by
  obtain ⟨h1, h2, h3, h4⟩ := C8_diversity_edge_cases 2 1 [cexD1, cexD2] "delta"
  exact ⟨h1, h2 (by simp) (by decide), h3, h4 (le_refl 1)⟩

/-- Well-formedness of the merge map: keys are pairwise distinct, and every
stored chunk's `chunk_id` equals its key. -/
def MapWF (m : ChunkMap) : Prop :=
  (m.map Prod.fst).Nodup ∧ ∀ p ∈ m, p.2.chunk_id = p.1

/-- A dict write whose updater keeps either the old or the written chunk's id
preserves map well-formedness. -/
lemma mapStep_wf (upd : RetrievedChunk → RetrievedChunk → RetrievedChunk)
    (hupd : ∀ old c, (upd old c).chunk_id = old.chunk_id ∨
      (upd old c).chunk_id = c.chunk_id)
    (m : ChunkMap) (c : RetrievedChunk) (h : MapWF m) :
    MapWF (mapStep upd m c) := by
  obtain ⟨hk, hv⟩ := h
  unfold mapStep
  split
  · constructor
    · have hkeys : (m.map (fun p =>
          if p.1 == c.chunk_id then (p.1, upd p.2 c) else p)).map Prod.fst =
          m.map Prod.fst := by
        rw [List.map_map]
        apply List.map_congr_left
        intro p _
        simp only [Function.comp_apply]
        split <;> rfl
      rw [hkeys]
      exact hk
    · intro p hp
      rw [List.mem_map] at hp
      obtain ⟨q, hq, rfl⟩ := hp
      by_cases hb : q.1 == c.chunk_id
      · rw [if_pos hb]
        rcases hupd q.2 c with h' | h'
        · exact h'.trans (hv q hq)
        · exact h'.trans (beq_iff_eq.mp hb).symm
      · rw [if_neg hb]
        exact hv q hq
  · rename_i hany
    simp only [Bool.not_eq_true, List.any_eq_false] at hany
    constructor
    · rw [List.map_append]
      rw [List.nodup_append]
      refine ⟨hk, List.nodup_singleton _, ?_⟩
      intro x hx hx'
      rw [List.mem_map] at hx
      obtain ⟨q, hq, rfl⟩ := hx
      have := hany q hq
      simp only [Bool.not_eq_true, beq_eq_false_iff_ne] at this
      simp only [List.map_cons, List.map_nil, List.mem_singleton] at hx'
      exact this hx'
    · intro p hp
      rcases List.mem_append.mp hp with h' | h'
      · exact hv p h'
      · rw [List.mem_singleton] at h'
        subst h'
        rfl

/-- Folding well-formedness-preserving steps keeps the map well-formed. -/
lemma foldl_mapStep_wf (upd : RetrievedChunk → RetrievedChunk → RetrievedChunk)
    (hupd : ∀ old c, (upd old c).chunk_id = old.chunk_id ∨
      (upd old c).chunk_id = c.chunk_id) :
    ∀ (l : List RetrievedChunk) (m : ChunkMap), MapWF m →
      MapWF (l.foldl (mapStep upd) m) := by
  intro l
  induction l with
  | nil => intro m hm; exact hm
  | cons c rest ih =>
    intro m hm
    rw [List.foldl_cons]
    exact ih _ (mapStep_wf upd hupd m c hm)

/-- The merged map of `_merge_and_rerank` is well-formed for all inputs. -/
lemma mergedMap_wf (vector_results graph_results : List RetrievedChunk) :
    MapWF (mergedMap vector_results graph_results) := by
  unfold mergedMap seedStep graphStep
  apply foldl_mapStep_wf
  · intro old c
    exact Or.inl rfl
  · apply foldl_mapStep_wf
    · intro old c
      exact Or.inr rfl
    · exact ⟨List.nodup_nil, by simp⟩

/-- In a well-formed map the stored chunks' ids are pairwise distinct. -/
lemma mapWF_values_nodup {m : ChunkMap} (h : MapWF m) :
    ((m.map Prod.snd).map RetrievedChunk.chunk_id).Nodup := by
  rw [List.map_map]
  have : m.map (RetrievedChunk.chunk_id ∘ Prod.snd) = m.map Prod.fst :=
    List.map_congr_left (fun p hp => h.2 p hp)
  rw [this]
  exact h.1

/-- Seeding a dict with vector results of pairwise-distinct ids, starting from
a map containing none of those ids, just appends one entry per result. -/
lemma foldl_seedStep_fresh :
    ∀ (vr : List RetrievedChunk) (acc : ChunkMap),
      (vr.map RetrievedChunk.chunk_id).Nodup →
      (∀ c ∈ vr, ∀ p ∈ acc, p.1 ≠ c.chunk_id) →
      vr.foldl seedStep acc = acc ++ vr.map (fun c => (c.chunk_id, c)) := by
  intro vr
  induction vr with
  | nil => intro acc _ _; simp
  | cons c rest ih =>
    intro acc hnd hfresh
    have hany : (acc.any fun p => p.1 == c.chunk_id) = false := by
      rw [List.any_eq_false]
      intro p hp
      simpa using hfresh c (List.mem_cons_self c rest) p hp
    have hstep : seedStep acc c = acc ++ [(c.chunk_id, c)] := by
      unfold seedStep mapStep
      rw [if_neg (by rw [hany]; exact Bool.false_ne_true)]
    rw [List.foldl_cons, hstep, ih (acc ++ [(c.chunk_id, c)])
      (by rw [List.map_cons] at hnd; exact hnd.of_cons) ?_]
    · rw [List.append_assoc]
      rfl
    · intro c' hc' p hp
      rcases List.mem_append.mp hp with h' | h'
      · exact hfresh c' (List.mem_cons_of_mem c hc') p h'
      · rw [List.mem_singleton] at h'
        subst h'
        intro heq
        rw [List.map_cons, List.nodup_cons] at hnd
        have : c.chunk_id = c'.chunk_id := heq
        rw [this] at hnd
        exact hnd.1 (List.mem_map_of_mem RetrievedChunk.chunk_id hc')

/-- Looking up a seeded vector result of pairwise-distinct ids finds exactly
that result. -/
lemma mLookup_literal :
    ∀ (vr : List RetrievedChunk) (v : RetrievedChunk),
      (vr.map RetrievedChunk.chunk_id).Nodup → v ∈ vr →
      mLookup (vr.map (fun c => (c.chunk_id, c))) v.chunk_id = some v := by
  intro vr
  induction vr with
  | nil => intro v _ hv; exact absurd hv (List.not_mem_nil v)
  | cons c rest ih =>
    intro v hnd hv
    rw [List.map_cons, List.nodup_cons] at hnd
    rcases List.mem_cons.mp hv with rfl | hv'
    · unfold mLookup
      rw [List.map_cons, List.find?_cons_of_pos _ (by simp)]
      rfl
    · have hne : (c.chunk_id == v.chunk_id) = false := by
        rw [beq_eq_false_iff_ne]
        intro heq
        exact hnd.1 (heq ▸ List.mem_map_of_mem RetrievedChunk.chunk_id hv')
      unfold mLookup
      rw [List.map_cons, List.find?_cons_of_neg _ (by simp [hne])]
      exact ih v hnd.2 hv'

/-- A successful lookup forces the key-present branch of a dict write. -/
lemma mLookup_any {m : ChunkMap} {k : String} {v : RetrievedChunk}
    (h : mLookup m k = some v) : (m.any fun p => p.1 == k) = true := by
  unfold mLookup at h
  cases hfind : m.find? (fun p => p.1 == k) with
  | none => rw [hfind] at h; exact absurd h (by simp)
  | some q =>
    rw [List.any_eq_true]
    exact ⟨q, List.mem_of_find?_eq_some hfind, by simpa using List.find?_some hfind⟩

/-- Updating the entries of one key leaves lookups of a different key
unchanged. -/
lemma mLookup_update_ne (m : ChunkMap) (kk k : String) (hne : kk ≠ k)
    (u : RetrievedChunk → RetrievedChunk) :
    mLookup (m.map (fun p => if p.1 == kk then (p.1, u p.2) else p)) k =
      mLookup m k := by
  induction m with
  | nil => rfl
  | cons p rest ih =>
    rcases Bool.eq_false_or_eq_true (p.1 == k) with hk | hk
    · have hkk : (p.1 == kk) = false := by
        rw [beq_eq_false_iff_ne]
        intro heq
        exact hne (heq.symm.trans (beq_iff_eq.mp hk))
      unfold mLookup
      rw [List.map_cons, if_neg (by rw [hkk]; exact Bool.false_ne_true),
        List.find?_cons, hk, List.find?_cons, hk]
    · rcases Bool.eq_false_or_eq_true (p.1 == kk) with hkk | hkk
      · unfold mLookup at ih ⊢
        rw [List.map_cons, if_pos hkk, List.find?_cons,
          show ((p.1, u p.2).1 == k) = false from hk, List.find?_cons, hk]
        exact ih
      · unfold mLookup at ih ⊢
        rw [List.map_cons, if_neg (by rw [hkk]; exact Bool.false_ne_true),
          List.find?_cons, hk, List.find?_cons, hk]
        exact ih

/-- Updating the entries of a present key rewrites exactly the stored chunk. -/
lemma mLookup_update_eq (m : ChunkMap) (k : String)
    (u : RetrievedChunk → RetrievedChunk) (v : RetrievedChunk)
    (h : mLookup m k = some v) :
    mLookup (m.map (fun p => if p.1 == k then (p.1, u p.2) else p)) k =
      some (u v) := by
  induction m with
  | nil => exact absurd h (by simp [mLookup])
  | cons p rest ih =>
    rcases Bool.eq_false_or_eq_true (p.1 == k) with hk | hk
    · unfold mLookup at h ⊢
      rw [List.find?_cons, hk] at h
      rw [List.map_cons, if_pos hk, List.find?_cons,
        show ((p.1, u p.2).1 == k) = true from hk]
      have hv : p.2 = v := by simpa using h
      simp [hv]
    · unfold mLookup at h ⊢
      rw [List.find?_cons, hk] at h
      rw [List.map_cons, if_neg (by rw [hk]; exact Bool.false_ne_true),
        List.find?_cons, hk]
      exact ih h

/-- A graph-merge step for a different id leaves a lookup unchanged. -/
lemma graphStep_lookup_ne (m : ChunkMap) (g : RetrievedChunk) (k : String)
    (hk : g.chunk_id ≠ k) : mLookup (graphStep m g) k = mLookup m k := by
  unfold graphStep mapStep
  split
  · exact mLookup_update_ne m g.chunk_id k hk
      (fun old => { old with graph_score := g.graph_score })
  · unfold mLookup
    rw [List.find?_append]
    have : List.find? (fun p => p.1 == k) [(g.chunk_id, g)] = none := by
      rw [List.find?_cons, show ((g.chunk_id, g).1 == k) = false from
        beq_eq_false_iff_ne.mpr hk]
      rfl
    rw [this, Option.or_none]

/-- A graph-merge step for a present id updates exactly that entry's
`graph_score`, preserving every other field of the stored chunk. -/
lemma graphStep_lookup_eq (m : ChunkMap) (g : RetrievedChunk)
    (v : RetrievedChunk) (h : mLookup m g.chunk_id = some v) :
    mLookup (graphStep m g) g.chunk_id =
      some { v with graph_score := g.graph_score } := by
  unfold graphStep mapStep
  rw [if_pos (mLookup_any h)]
  exact mLookup_update_eq m g.chunk_id
    (fun old => { old with graph_score := g.graph_score }) v h

/-- Folding graph results none of which carry the key leaves its lookup
unchanged. -/
lemma foldl_graphStep_ne :
    ∀ (gs : List RetrievedChunk) (m : ChunkMap) (k : String),
      (∀ g ∈ gs, g.chunk_id ≠ k) →
      mLookup (gs.foldl graphStep m) k = mLookup m k := by
  intro gs
  induction gs with
  | nil => intro m k _; rfl
  | cons g rest ih =>
    intro m k h
    rw [List.foldl_cons, ih _ k (fun g' hg' => h g' (List.mem_cons_of_mem g hg')),
      graphStep_lookup_ne m g k (h g (List.mem_cons_self g rest))]

/-- Folding graph results with pairwise-distinct ids over a map that already
stores `v` under `g.chunk_id` ends with that entry's `graph_score` replaced by
`g.graph_score` and all its other fields intact. -/
lemma foldl_graphStep_lookup :
    ∀ (gs : List RetrievedChunk) (m : ChunkMap) (g v : RetrievedChunk),
      (gs.map RetrievedChunk.chunk_id).Nodup → g ∈ gs →
      mLookup m g.chunk_id = some v →
      mLookup (gs.foldl graphStep m) g.chunk_id =
        some { v with graph_score := g.graph_score } := by
  intro gs
  induction gs with
  | nil => intro m g v _ hg _; exact absurd hg (List.not_mem_nil g)
  | cons g' rest ih =>
    intro m g v hnd hg hv
    rw [List.map_cons, List.nodup_cons] at hnd
    rcases List.mem_cons.mp hg with rfl | hg'
    · have hrest : ∀ r ∈ rest, r.chunk_id ≠ g.chunk_id := by
        intro r hr heq
        exact hnd.1 (heq ▸ List.mem_map_of_mem RetrievedChunk.chunk_id hr)
      rw [List.foldl_cons, foldl_graphStep_ne rest _ g.chunk_id hrest,
        graphStep_lookup_eq m g v hv]
    · have hne : g'.chunk_id ≠ g.chunk_id := by
        intro heq
        exact hnd.1 (heq ▸ List.mem_map_of_mem RetrievedChunk.chunk_id hg')
      rw [List.foldl_cons]
      exact ih _ g v hnd.2 hg'
        ((graphStep_lookup_ne m g' g.chunk_id hne).trans hv)

/-- C1: the fused output of `_merge_and_rerank` never contains two candidates
with the same id, for any inputs; a chunk built by `_graph_traverse` always
enters the merge with `vector_score` 0; and when a candidate (of id-distinct
inputs) appears in both result lists, the merged map holds exactly one entry
under its id, carrying the vector result's `vector_score` (and every other
field) together with the graph result's `graph_score`. -/
theorem C1_merge_dedup (vector_weight graph_weight : ℚ)
    (vector_results graph_results : List RetrievedChunk) (top_k : Nat) :
    ((merge_and_rerank vector_weight graph_weight vector_results graph_results
        top_k).map RetrievedChunk.chunk_id).Nodup ∧
    (∀ item, (graphTraverseChunk item).vector_score = 0) ∧
    (∀ v g : RetrievedChunk,
      (vector_results.map RetrievedChunk.chunk_id).Nodup →
      (graph_results.map RetrievedChunk.chunk_id).Nodup →
      v ∈ vector_results → g ∈ graph_results → g.chunk_id = v.chunk_id →
      mLookup (mergedMap vector_results graph_results) v.chunk_id =
        some { v with graph_score := g.graph_score }) := by
  refine ⟨?_, fun item => rfl, ?_⟩
  · have hwf := mergedMap_wf vector_results graph_results
    have h1 := mapWF_values_nodup hwf
    show ((enforce_diversity (sortByFinalDesc
      (((mergedMap vector_results graph_results).map Prod.snd).map
        (scoreChunk vector_weight graph_weight))) top_k (19/20)).map
        RetrievedChunk.chunk_id).Nodup
    have h2 : ((((mergedMap vector_results graph_results).map Prod.snd).map
        (scoreChunk vector_weight graph_weight)).map RetrievedChunk.chunk_id) =
        (((mergedMap vector_results graph_results).map Prod.snd).map
          RetrievedChunk.chunk_id) := by
      rw [List.map_map]
      exact List.map_congr_left (fun c _ => rfl)
    have h3 : ((sortByFinalDesc
        (((mergedMap vector_results graph_results).map Prod.snd).map
          (scoreChunk vector_weight graph_weight))).map
        RetrievedChunk.chunk_id).Nodup := by
      refine ((sortByFinalDesc_perm _).map RetrievedChunk.chunk_id).symm.nodup ?_
      rw [h2]
      exact h1
    exact ((enforce_diversity_sublist _ top_k (19/20)).map
      RetrievedChunk.chunk_id).nodup h3
  · intro v g hvr hgr hv hg heq
    have hseed : vector_results.foldl seedStep [] =
        vector_results.map (fun c => (c.chunk_id, c)) := by
      have := foldl_seedStep_fresh vector_results [] hvr
        (by intro c _ p hp; exact absurd hp (List.not_mem_nil p))
      simpa using this
    have hget : mLookup (vector_results.foldl seedStep []) v.chunk_id = some v := by
      rw [hseed]
      exact mLookup_literal vector_results v hvr hv
    show mLookup (graph_results.foldl graphStep
      (vector_results.foldl seedStep [])) v.chunk_id =
      some { v with graph_score := g.graph_score }
    have := foldl_graphStep_lookup graph_results
      (vector_results.foldl seedStep []) g v hgr hg (by rw [heq]; exact hget)
    rw [heq] at this
    exact this

/-- Vector-side chunk of the C1 witness (same id as `wGr`). -/
def wVec : RetrievedChunk :=
  { chunk_id := "c1", text := "alpha", vector_score := 9/10 }

/-- Graph-side chunk of the C1 witness (same id as `wVec`). -/
def wGr : RetrievedChunk :=
  { chunk_id := "c1", text := "alpha", graph_score := 1/2 }

/-- Witness for C1: the empty-input instance of the dedup invariant, and the
concrete both-lists candidate merged into one entry with both scores. -/
theorem C1_merge_dedup_witness :
    ((merge_and_rerank (6/10) (4/10) ([] : List RetrievedChunk) [] 3).map
      RetrievedChunk.chunk_id).Nodup ∧
    mLookup (mergedMap [wVec] [wGr]) wVec.chunk_id =
      some { wVec with graph_score := wGr.graph_score } := by
  refine ⟨(C1_merge_dedup (6/10) (4/10) [] [] 3).1, ?_⟩
  exact (C1_merge_dedup (6/10) (4/10) [wVec] [wGr] 3).2.2 wVec wGr
    (by simp) (by simp) (by simp) (by simp) rfl

/-- Word-disjoint texts have overlap 0. -/
lemma compute_overlap_of_disjoint {t1 t2 : String}
    (h : wordSet t1 ∩ wordSet t2 = ∅) : compute_overlap t1 t2 = 0 := by
  simp only [compute_overlap]
  split
  · rfl
  · split
    · rfl
    · rw [h]
      simp

/-- A candidate with zero overlap against a distinct selected text passes the
near-duplicate test (for a nonnegative threshold). -/
lemma isNearDupOf_eq_false {threshold : ℚ} {t sel : String}
    (hts : (t == sel) = false) (h : compute_overlap t sel = 0)
    (hθ : 0 ≤ threshold) : isNearDupOf threshold t sel = false := by
  simp [isNearDupOf, hts, h, not_lt.mpr hθ]

/-- First vector result of the worked example (id "1", score 0.9). -/
def exV1 : RetrievedChunk :=
  { chunk_id := "1", text := "alpha", vector_score := 9/10, final_score := 9/10 }

/-- Second vector result of the worked example (id "2", score 0.7). -/
def exV2 : RetrievedChunk :=
  { chunk_id := "2", text := "bravo", vector_score := 7/10, final_score := 7/10 }

/-- First graph result of the worked example (id "2", path score 0.8). -/
def exG2 : RetrievedChunk :=
  { chunk_id := "2", text := "bravo", graph_score := 8/10, final_score := 8/10 }

/-- Second graph result of the worked example (id "3", path score 0.6). -/
def exG3 : RetrievedChunk :=
  { chunk_id := "3", text := "charlie", graph_score := 6/10, final_score := 6/10 }

/-- Fused example candidate id "1": 0.6·0.9 + 0.4·0 = 0.54. -/
def exR1 : RetrievedChunk :=
  { chunk_id := "1", text := "alpha", vector_score := 9/10,
    final_score := 54/100 }

/-- Fused example candidate id "2": 0.6·0.7 + 0.4·0.8 = 0.74. -/
def exR2 : RetrievedChunk :=
  { chunk_id := "2", text := "bravo", vector_score := 7/10,
    graph_score := 8/10, final_score := 74/100 }

/-- Fused example candidate id "3": 0.6·0 + 0.4·0.6 = 0.24. -/
def exR3 : RetrievedChunk :=
  { chunk_id := "3", text := "charlie", graph_score := 6/10,
    final_score := 24/100 }

/-- C3: the fused score is `vectorWeight·vectorScore + graphWeight·graphScore`
— a candidate with vector score 0.7 and graph score 0.8 under weights 0.6/0.4
fuses to exactly 0.74 (so certainly within 1e-9) — and the worked example
vectorResults `[("1",0.9),("2",0.7)]`, graphResults `[("2",0.8),("3",0.6)]`,
weights 0.6/0.4, topK 3, pairwise word-disjoint texts, is returned in the
order id "2" (0.74), id "1" (0.54), id "3" (0.24). -/
theorem C3_weighted_fusion_example :
    (scoreChunk (6/10) (4/10) { exV2 with graph_score := 8/10 }).final_score
      = 74/100 ∧
    |(scoreChunk (6/10) (4/10) { exV2 with graph_score := 8/10 }).final_score
      - 74/100| ≤ 1/1000000000 ∧
    (merge_and_rerank (6/10) (4/10) [exV1, exV2] [exG2, exG3] 3).map
      (fun c => (c.chunk_id, c.final_score)) =
      [("2", 74/100), ("1", 54/100), ("3", 24/100)] := by
  have hsc : (scoreChunk (6/10) (4/10)
      { exV2 with graph_score := 8/10 }).final_score = 74/100 := by
    norm_num [scoreChunk, exV2]
  refine ⟨hsc, by rw [hsc]; norm_num, ?_⟩
  have hm : mergedMap [exV1, exV2] [exG2, exG3] =
      [("1", exV1), ("2", { exV2 with graph_score := 8/10 }), ("3", exG3)] := by
    rfl
  have hs : (([("1", exV1), ("2", { exV2 with graph_score := 8/10 }),
      ("3", exG3)].map Prod.snd).map (scoreChunk (6/10) (4/10))) =
      [exR1, exR2, exR3] := by
    norm_num [scoreChunk, exV1, exV2, exG3, exR1, exR2, exR3]
  have hsort : sortByFinalDesc [exR1, exR2, exR3] = [exR2, exR1, exR3] := by
    norm_num [sortByFinalDesc, insertByScore, exR1, exR2, exR3]
  have d12 : isNearDupOf (19/20) exR1.text exR2.text = false :=
    isNearDupOf_eq_false (by decide) (compute_overlap_of_disjoint (by decide))
      (by norm_num)
  have d31 : isNearDupOf (19/20) exR3.text exR1.text = false :=
    isNearDupOf_eq_false (by decide) (compute_overlap_of_disjoint (by decide))
      (by norm_num)
  have d32 : isNearDupOf (19/20) exR3.text exR2.text = false :=
    isNearDupOf_eq_false (by decide) (compute_overlap_of_disjoint (by decide))
      (by norm_num)
  have hdiv : enforce_diversity [exR2, exR1, exR3] 3 (19/20) =
      [exR2, exR1, exR3] := by
    show List.foldl (divStep 3 (19/20)) [exR2] [exR1, exR3] = [exR2, exR1, exR3]
    have st1 : divStep 3 (19/20) [exR2] exR1 = [exR2, exR1] := by
      unfold divStep
      rw [if_neg (by decide), if_neg (by simp [d12])]
      rfl
    have st2 : divStep 3 (19/20) [exR2, exR1] exR3 = [exR2, exR1, exR3] := by
      unfold divStep
      rw [if_neg (by decide), if_neg (by simp [d32, d31])]
      rfl
    rw [List.foldl_cons, st1, List.foldl_cons, st2, List.foldl_nil]
  show (enforce_diversity (sortByFinalDesc
    (((mergedMap [exV1, exV2] [exG2, exG3]).map Prod.snd).map
      (scoreChunk (6/10) (4/10)))) 3 (19/20)).map
      (fun c => (c.chunk_id, c.final_score)) =
    [("2", 74/100), ("1", 54/100), ("3", 24/100)]
  rw [hm, hs, hsort, hdiv]
  rfl

/-- Witness for C10 at concrete texts: a nonempty pair for the bounds and the
nonzero-union part, and a whitespace-only first text for the zero-overlap
part. -/
theorem C10_compute_overlap_total_witness :
    0 ≤ compute_overlap "a" "b" ∧
    ((wordSet "a" ∪ wordSet "b").card : ℚ) ≠ 0 ∧
    compute_overlap " " "x y" = 0 ∧
    isNearDupOf (19/20) " " "x y" = (" " == "x y") := by
  obtain ⟨h1, _, h3, _, _⟩ := C10_compute_overlap_total "a" "b" (19/20)
  obtain ⟨_, _, _, _, h5⟩ := C10_compute_overlap_total " " "x y" (19/20)
  have hw : ∀ c ∈ (" " : String).data, c.isWhitespace = true := by decide
  exact ⟨h1, h3 (by decide) (by decide), (h5 hw (by norm_num)).1,
    (h5 hw (by norm_num)).2⟩
